import Mathlib

/-!
Verification development for the spacetraveling blog's post-detail page.

The repository contains two near-duplicate `getStaticProps` data assemblers
for the post page (one with Prismic preview-mode support, one without),
plus the rendering-time derived fields `wasEdited` and `readingTime`.
This file shallowly embeds those computations:

* timestamps (`first_publication_date`, `last_publication_date`) are
  modelled as `Int` values, standing for the millisecond value obtained by
  `new Date(s)` on the stored date string;
* the Prismic document store is modelled as a `List Document`; the store's
  query interface (predicates, orderings, `after`, `pageSize`) is modelled
  from the spec's description of the external interface, with a stable sort
  so that documents tied on the ordering key keep store order;
* JavaScript string operations used by the reading-time computation
  (`String.prototype.trim`, `String.prototype.split` with the regex
  `/\s+/`) are embedded over `List Char` with JS semantics — in particular
  splitting the empty string yields one empty token.
-/

namespace Spacetraveling

/-- One fragment of a rich-text body: `{ text: string }`. -/
structure BodySpan where
  text : String
deriving DecidableEq

/-- One content block: `{ heading: string; body: { text: string }[] }`. -/
structure ContentBlock where
  heading : String
  body : List BodySpan
deriving DecidableEq

/-- The `data` payload of a post document. -/
structure PostData where
  title : String
  bannerUrl : String
  author : String
  content : List ContentBlock
deriving DecidableEq

/-- A Prismic document. `first_publication_date` and
`last_publication_date` are the parsed timestamps (see module docstring);
`id` is the Prismic-internal document id used by the `after` query option,
`uid` the slug used by `getByUID`, and `type` the document type. -/
structure Document where
  id : String
  uid : String
  type : String
  first_publication_date : Int
  last_publication_date : Int
  data : PostData
deriving DecidableEq

/-! ### JavaScript string primitives used by the reading-time computation -/

/-- JS `String.prototype.trim`: strip whitespace from both ends. -/
def jsTrim (cs : List Char) : List Char :=
  ((cs.dropWhile Char.isWhitespace).reverse.dropWhile Char.isWhitespace).reverse

/-- Worker for `jsSplitWs`. The second argument is `some acc` while inside
a word (`acc` holds the reversed characters seen so far) and `none` right
after a whitespace run that has already emitted its preceding piece. -/
def jsSplitRun : List Char → Option (List Char) → List (List Char)
  | [], some acc => [acc.reverse]
  | [], none => [[]]
  | c :: cs, some acc =>
    if c.isWhitespace then acc.reverse :: jsSplitRun cs none
    else jsSplitRun cs (some (c :: acc))
  | c :: cs, none =>
    if c.isWhitespace then jsSplitRun cs none
    else jsSplitRun cs (some [c])

/-- JS `s.split(/\s+/)`: the pieces of `s` between maximal whitespace
runs. As in JavaScript, `"".split(/\s+/)` is `[""]` (one empty piece), a
leading whitespace run contributes a leading empty piece, and a trailing
one a trailing empty piece. -/
def jsSplitWs (cs : List Char) : List (List Char) :=
  match cs with
  | [] => [[]]
  | c :: cs => if c.isWhitespace then [] :: jsSplitRun cs none else jsSplitRun cs (some [c])

/-- `RichText.asText` from prismic-dom: the `text` of every span of the
body, joined with a single space. -/
def asText (body : List BodySpan) : String :=
  String.intercalate " " (body.map (fun s => s.text))

/-- The reduce at the top of the `Post` component:
`RichText.asText(content.body).trim().split(/\s+/).length` summed over all
content blocks, starting from 0. -/
def wordsCount (content : List ContentBlock) : Nat :=
  content.foldl
    (fun accumulator c => accumulator + (jsSplitWs (jsTrim (asText c.body).toList)).length) 0

/-- `Math.ceil(wordsCount / 200)` — exact ceiling division on `Nat`
(the word count is far below 2^53, so JS float division is exact enough
for the ceiling to agree with rational ceiling). -/
def readingTime (content : List ContentBlock) : Nat :=
  (wordsCount content + 199) / 200

/-! ### wasEdited -/

/-- date-fns `compareAsc`: -1, 0 or 1 as the first date is before, equal
to, or after the second. -/
def compareAsc (a b : Int) : Int :=
  if a < b then -1 else if b < a then 1 else 0

/-- JS double-negation `!!n` on a number: false exactly on (signed) zero. -/
def jsTruthyInt (n : Int) : Bool :=
  n != 0

/-- `wasEdited = !!compareAsc(new Date(last), new Date(first))`, as
computed by both `getStaticProps` variants. -/
def wasEditedFlag (first last : Int) : Bool :=
  jsTruthyInt (compareAsc last first)

/-! ### The document store

Modelled from the spec: the external document store interface
`query(predicates, {pageSize, after|orderings}) → {results}` and
`getByUid(type, uid, {ref}) → Document` (spec §6). The store is a list of
documents in the store's natural order; revisions and preview refs are not
modelled (the store holds a single published revision per document). -/

/-- Modelled from the spec: a store query filters the documents by the
predicates, orders them by the requested ordering (a stable sort, so ties
keep the store's natural order), optionally keeps only the results
strictly after the document with id `afterId` in that ordering, and
truncates to `pageSize` results. -/
def storeQuery (store : List Document) (pred : Document → Bool)
    (ord : Document → Document → Prop) [DecidableRel ord]
    (afterId : Option String) (pageSize : Nat) : List Document :=
  let sorted := List.insertionSort ord (store.filter pred)
  let positioned :=
    match afterId with
    | none => sorted
    | some i => (sorted.dropWhile (fun (d : Document) => d.id != i)).drop 1
  positioned.take pageSize

/-- Modelled from the spec: `getByUid` resolves a uid to the document of
the given type carrying that uid, and fails (`none`) when no such document
exists. -/
def getByUID (store : List Document) (ty slug : String) : Option Document :=
  store.find? (fun d => d.type == ty && d.uid == slug)

/-- The predicate `Prismic.Predicates.at('document.type', 'posts')`. -/
def postsOnly : Document → Bool :=
  fun d => d.type == "posts"

/-- The ordering `'[document.first_publication_date]'`. -/
def dateAsc : Document → Document → Prop :=
  fun d e => d.first_publication_date ≤ e.first_publication_date

/-- The ordering `'[document.first_publication_date desc]'`. -/
def dateDesc : Document → Document → Prop :=
  fun d e => e.first_publication_date ≤ d.first_publication_date

instance : DecidableRel dateAsc :=
  fun d e =>
    inferInstanceAs (Decidable (d.first_publication_date ≤ e.first_publication_date))

instance : DecidableRel dateDesc :=
  fun d e =>
    inferInstanceAs (Decidable (e.first_publication_date ≤ d.first_publication_date))

/-! ### The two getStaticProps variants -/

/-- Props assembled by the preview-enabled variant of the post page. -/
structure PreviewPostProps where
  post : Document
  nextPost : Option Document
  prevPost : Option Document
  wasEdited : Bool
  preview : Bool
deriving DecidableEq

/-- Props assembled by the plain (non-preview) variant of the post page. -/
structure PostProps where
  post : Document
  nextPost : Option Document
  prevPost : Option Document
  wasEdited : Bool
deriving DecidableEq

/-- Failure of the primary document fetch. -/
inductive AssembleError where
  | notFound
deriving DecidableEq

/-- The preview variant's next-neighbor query: type `posts`, ordered by
ascending first publication date, results after the current document's id,
page size 1. -/
def nextQueryPreview (store : List Document) (response : Document) : List Document :=
  storeQuery store postsOnly dateAsc (some response.id) 1

/-- The preview variant's previous-neighbor query: type `posts`, ordered by
descending first publication date, results after the current document's
id, page size 1. -/
def prevQueryPreview (store : List Document) (response : Document) : List Document :=
  storeQuery store postsOnly dateDesc (some response.id) 1

/-- The plain variant's next-neighbor query:
`dateAfter('document.first_publication_date', response.first_publication_date)`
(and no document-type predicate), ordered ascending, page size 1. -/
def nextQueryPlain (store : List Document) (response : Document) : List Document :=
  storeQuery store
    (fun d => decide (response.first_publication_date < d.first_publication_date))
    dateAsc none 1

/-- The plain variant's previous-neighbor query:
`dateBefore('document.first_publication_date', response.first_publication_date)`
(and no document-type predicate), ordered descending, page size 1. -/
def prevQueryPlain (store : List Document) (response : Document) : List Document :=
  storeQuery store
    (fun d => decide (d.first_publication_date < response.first_publication_date))
    dateDesc none 1

/-- The preview-enabled `getStaticProps` (first page variant): fetch by
uid, run the two `after: response.id` neighbor queries, take
`results[0] || null` of each, and compute `wasEdited`. -/
def getStaticPropsPreview (store : List Document) (slug : String) (preview : Bool) :
    Except AssembleError PreviewPostProps :=
  match getByUID store "posts" slug with
  | none => .error .notFound
  | some response =>
    .ok
      { post := response
        nextPost := (nextQueryPreview store response).head?
        prevPost := (prevQueryPreview store response).head?
        wasEdited :=
          wasEditedFlag response.first_publication_date response.last_publication_date
        preview := preview }

/-- The plain `getStaticProps` (second page variant): fetch by uid, run the
two strict date-predicate neighbor queries, take `results[0] || null` of
each, and compute `wasEdited`. -/
def getStaticPropsPlain (store : List Document) (slug : String) :
    Except AssembleError PostProps :=
  match getByUID store "posts" slug with
  | none => .error .notFound
  | some response =>
    .ok
      { post := response
        nextPost := (nextQueryPlain store response).head?
        prevPost := (prevQueryPlain store response).head?
        wasEdited :=
          wasEditedFlag response.first_publication_date response.last_publication_date }

/-! ### Concrete fixtures used in counterexamples and witnesses -/

/-- Fixture: an empty `data` payload. -/
def emptyData : PostData :=
  { title := "", bannerUrl := "", author := "", content := [] }

/-- Fixture: a post; shares its first publication date with `docB`. -/
def docA : Document :=
  { id := "A", uid := "a", type := "posts", first_publication_date := 100,
    last_publication_date := 100, data := emptyData }

/-- Fixture: a post tied with `docA` on first publication date. -/
def docB : Document :=
  { id := "B", uid := "b", type := "posts", first_publication_date := 100,
    last_publication_date := 100, data := emptyData }

/-- Fixture: the earlier of two posts with distinct dates. -/
def docOne : Document :=
  { id := "O", uid := "one", type := "posts", first_publication_date := 1,
    last_publication_date := 1, data := emptyData }

/-- Fixture: the later of two posts with distinct dates. -/
def docTwo : Document :=
  { id := "T", uid := "two", type := "posts", first_publication_date := 2,
    last_publication_date := 2, data := emptyData }

/-- Fixture: a post whose last publication date lies strictly before its
first publication date. -/
def docEdited : Document :=
  { id := "W", uid := "w", type := "posts", first_publication_date := 5,
    last_publication_date := 0, data := emptyData }

/-- Fixture: a post published at time 0. -/
def docPost0 : Document :=
  { id := "P", uid := "p", type := "posts", first_publication_date := 0,
    last_publication_date := 0, data := emptyData }

/-- Fixture: a non-post document (type `page`) published after `docPost0`. -/
def docPage5 : Document :=
  { id := "X", uid := "x", type := "page", first_publication_date := 5,
    last_publication_date := 5, data := emptyData }

/-- Fixture: a lone post. -/
def docSolo : Document :=
  { id := "S", uid := "s", type := "posts", first_publication_date := 10,
    last_publication_date := 10, data := emptyData }

/-- Fixture: a content block holding exactly 200 words. -/
def block200 : ContentBlock :=
  { heading := "h", body := List.replicate 200 { text := "a" } }

/-- Fixture: a post whose content holds exactly 200 words. -/
def doc200 : Document :=
  { id := "C", uid := "c", type := "posts", first_publication_date := 0,
    last_publication_date := 0,
    data := { title := "", bannerUrl := "", author := "", content := [block200] } }

/-- Fixture: a post with one content block whose body has no spans. -/
def docEmptyBlock : Document :=
  { id := "E", uid := "e", type := "posts", first_publication_date := 0,
    last_publication_date := 0,
    data := { title := "", bannerUrl := "", author := "",
              content := [{ heading := "h", body := [] }] } }

/-! ### Helper lemmas -/

theorem head?_take_one {α : Type} (l : List α) : (l.take 1).head? = l.head? := by
  cases l <;> rfl

theorem dropWhile_head_false {α : Type} (q : α → Bool) :
    ∀ (l : List α) (h : α) (t : List α), l.dropWhile q = h :: t → q h = false := by
  intro l
  induction l with
  | nil => intro h t hcontra; simp [List.dropWhile] at hcontra
  | cons c l ih =>
    intro h t hd
    rw [List.dropWhile_cons] at hd
    by_cases hc : q c = true
    · rw [if_pos hc] at hd
      exact ih h t hd
    · rw [if_neg hc] at hd
      cases hd
      simpa using hc

theorem jsSplitRun_ne_nil : ∀ (cs : List Char) (o : Option (List Char)),
    jsSplitRun cs o ≠ [] := by
  intro cs
  induction cs with
  | nil => intro o; cases o <;> simp [jsSplitRun]
  | cons c cs ih =>
    intro o
    cases o with
    | none =>
      simp only [jsSplitRun]
      split
      · exact ih none
      · exact ih (some [c])
    | some acc =>
      simp only [jsSplitRun]
      split
      · simp
      · exact ih (some (c :: acc))

theorem jsSplitWs_length_pos (cs : List Char) : 0 < (jsSplitWs cs).length := by
  cases cs with
  | nil => simp [jsSplitWs]
  | cons c cs =>
    simp only [jsSplitWs]
    split
    · simp
    · exact List.length_pos.mpr (jsSplitRun_ne_nil cs (some [c]))

/-- Every content block contributes at least one token to `wordsCount`. -/
theorem le_wordsCount_aux (content : List ContentBlock) :
    ∀ acc : Nat,
      acc + content.length ≤
        content.foldl
          (fun accumulator c =>
            accumulator + (jsSplitWs (jsTrim (asText c.body).toList)).length) acc := by
  induction content with
  | nil => intro acc; simp
  | cons c content ih =>
    intro acc
    simp only [List.foldl_cons, List.length_cons]
    calc acc + (content.length + 1)
        = (acc + 1) + content.length := by omega
      _ ≤ (acc + (jsSplitWs (jsTrim (asText c.body).toList)).length) + content.length := by
          have := jsSplitWs_length_pos (jsTrim (asText c.body).toList)
          omega
      _ ≤ _ := ih _

theorem length_le_wordsCount (content : List ContentBlock) :
    content.length ≤ wordsCount content := by
  simpa using le_wordsCount_aux content 0

/-- If the head of the suffix lying strictly after the document with id `i`
(in a list whose documents carry pairwise-distinct ids) is `x`, then `x`
does not carry id `i`. -/
theorem after_id_head_ne {l : List Document} (hid : (l.map (fun d => d.id)).Nodup)
    (i : String) (x : Document)
    (hx : ((l.dropWhile (fun (d : Document) => d.id != i)).drop 1).head? = some x) :
    x.id ≠ i := by
  cases hdw : l.dropWhile (fun (d : Document) => d.id != i) with
  | nil => rw [hdw] at hx; simp at hx
  | cons h t =>
    have hh : h.id = i := by
      have := dropWhile_head_false (fun (d : Document) => d.id != i) l h t hdw
      simpa using this
    have hsub : List.Sublist (h :: t) l := hdw ▸ List.dropWhile_sublist _
    have hnodup : ((h :: t).map (fun d => d.id)).Nodup :=
      (hsub.map (fun d => d.id)).nodup hid
    have hmem : x ∈ t := by
      rw [hdw] at hx
      simp only [List.drop_one, List.tail_cons] at hx
      exact List.mem_of_mem_head? (by simp [hx])
    have : h.id ∉ t.map (fun d => d.id) := by
      simpa using (List.nodup_cons.mp hnodup).1
    intro hxi
    exact this (by simpa [hxi, hh] using List.mem_map_of_mem (fun d => d.id) hmem)

/-- Two sorted lists that are permutations of each other are equal, given
antisymmetry of the order on the elements of the first list (a local
variant of `List.eq_of_perm_of_sorted`, which needs a global `IsAntisymm`
instance). -/
theorem eq_of_perm_of_sorted_on {α : Type} (r : α → α → Prop) :
    ∀ (l₁ l₂ : List α), l₁.Perm l₂ →
      (∀ a ∈ l₁, ∀ b ∈ l₁, r a b → r b a → a = b) →
      l₁.Sorted r → l₂.Sorted r → l₁ = l₂ := by
  intro l₁
  induction l₁ with
  | nil =>
    intro l₂ hperm _ _ _
    exact hperm.nil_eq
  | cons a l₁ ih =>
    intro l₂ hperm hanti hs₁ hs₂
    cases l₂ with
    | nil => exact absurd hperm.symm.nil_eq (by simp)
    | cons b l₂ =>
      have hab : a = b := by
        have hbmem : b ∈ a :: l₁ := hperm.mem_iff.mpr (List.mem_cons_self b l₂)
        have hamem : a ∈ b :: l₂ := hperm.mem_iff.mp (List.mem_cons_self a l₁)
        rcases List.mem_cons.mp hbmem with h | h
        · exact h.symm
        rcases List.mem_cons.mp hamem with h' | h'
        · exact h'
        have hrab : r a b := List.rel_of_sorted_cons hs₁ b h
        have hrba : r b a := List.rel_of_sorted_cons hs₂ a h'
        exact hanti a (List.mem_cons_self a l₁) b (List.mem_cons_of_mem a h) hrab hrba
      subst hab
      have hperm' : l₁.Perm l₂ := hperm.cons_inv
      have htail :=
        ih l₂ hperm'
          (fun x hx y hy => hanti x (List.mem_cons_of_mem a hx) y (List.mem_cons_of_mem a hy))
          hs₁.of_cons hs₂.of_cons
      rw [htail]

/-- Abstract equivalence of the two neighbor-lookup styles. Sort the whole
store by a total preorder `le` and take the first result strictly after the
current document's id (the preview variant's `after: response.id` query);
this agrees with filtering by the strict version of `le` against the
current document and taking the first result of the sorted remainder (the
plain variant's `dateAfter`/`dateBefore` query) — provided ids are unique
and `le` is antisymmetric on the store (no two documents tie on the
ordering key). -/
theorem head_after_eq_head_filter
    (le : Document → Document → Prop) [DecidableRel le]
    (htot : ∀ a b, le a b ∨ le b a)
    (htrans : ∀ a b c, le a b → le b c → le a c)
    (store : List Document) (cur : Document) (p : Document → Bool)
    (hid : (store.map (fun d => d.id)).Nodup)
    (hanti : ∀ a ∈ store, ∀ b ∈ store, le a b → le b a → a = b)
    (hcur : cur ∈ store)
    (hp : ∀ d ∈ store, (p d = true ↔ (le cur d ∧ ¬ le d cur))) :
    (((List.insertionSort le store).dropWhile
        (fun (d : Document) => d.id != cur.id)).drop 1).head?
      = (List.insertionSort le (store.filter p)).head? := by
  haveI : IsTotal Document le := ⟨htot⟩
  haveI : IsTrans Document le := ⟨htrans⟩
  set s := List.insertionSort le store with hs
  have hperm : s.Perm store := List.perm_insertionSort le store
  have hsorted : s.Sorted le := List.sorted_insertionSort le store
  have hid_s : (s.map (fun d => d.id)).Nodup := ((hperm.map _).nodup_iff).mpr hid
  have hcur_s : cur ∈ s := hperm.mem_iff.mpr hcur
  set q : Document → Bool := fun d => d.id != cur.id with hq
  have hdw_ne : s.dropWhile q ≠ [] := by
    rw [ne_eq, List.dropWhile_eq_nil_iff]
    push_neg
    exact ⟨cur, hcur_s, by simp [hq]⟩
  obtain ⟨h, t, hht⟩ : ∃ h t, s.dropWhile q = h :: t := by
    cases hc : s.dropWhile q with
    | nil => exact absurd hc hdw_ne
    | cons h t => exact ⟨h, t, rfl⟩
  have hhid : h.id = cur.id := by
    have := dropWhile_head_false q s h t hht
    simpa [hq] using this
  have hsub : List.Sublist (h :: t) s := hht ▸ List.dropWhile_sublist _
  have hhmem : h ∈ s := hsub.subset (List.mem_cons_self _ _)
  have hcur_eq : h = cur := List.inj_on_of_nodup_map hid_s hhmem hcur_s hhid
  subst hcur_eq
  have hsplit : s = s.takeWhile q ++ (h :: t) := by
    conv_lhs => rw [← List.takeWhile_append_dropWhile q s]
    rw [hht]
  set pre := s.takeWhile q with hpre
  have hpw : List.Pairwise le (pre ++ h :: t) := hsplit ▸ hsorted
  rw [List.pairwise_append] at hpw
  obtain ⟨hpw_pre, hpw_ct, hpw_cross⟩ := hpw
  have hct_head : ∀ b ∈ t, le h b := (List.pairwise_cons.mp hpw_ct).1
  have ht_pw : List.Pairwise le t := (List.pairwise_cons.mp hpw_ct).2
  have hnodup_ct : ((h :: t).map (fun d => d.id)).Nodup :=
    hid_s.sublist (hsub.map _)
  have ht_ne_id : ∀ x ∈ t, x.id ≠ h.id := by
    intro x hx
    have hni : h.id ∉ t.map (fun d => d.id) := by
      simpa using (List.nodup_cons.mp hnodup_ct).1
    intro hxe
    exact hni (by simpa [hxe] using List.mem_map_of_mem (fun d => d.id) hx)
  have hmem_store : ∀ x ∈ s, x ∈ store := fun x hx => hperm.mem_iff.mp hx
  have ht_mem_s : ∀ x ∈ t, x ∈ s := fun x hx => hsub.subset (List.mem_cons_of_mem _ hx)
  have hlecc : le h h := (htot h h).elim id id
  have hpt : ∀ x ∈ t, p x = true := by
    intro x hx
    refine (hp x (hmem_store x (ht_mem_s x hx))).mpr ⟨hct_head x hx, ?_⟩
    intro hxc
    exact ht_ne_id x hx
      (by rw [hanti x (hmem_store x (ht_mem_s x hx)) h (hmem_store h hhmem) hxc
        (hct_head x hx)])
  have hpcur : p h = false := by
    by_contra hpc
    rw [Bool.not_eq_false] at hpc
    exact ((hp h (hmem_store h hhmem)).mp hpc).2 hlecc
  have hppre : ∀ x ∈ pre, p x = false := by
    intro x hx
    have hxs : x ∈ store :=
      hmem_store x ((List.takeWhile_sublist q).subset hx)
    have hxc : le x h := hpw_cross x hx h (List.mem_cons_self _ _)
    by_contra hpc
    rw [Bool.not_eq_false] at hpc
    exact ((hp x hxs).mp hpc).2 hxc
  have hfilter_s : s.filter p = t := by
    rw [hsplit, List.filter_append, List.filter_cons]
    rw [List.filter_eq_nil_iff.mpr (by intro a ha; simp [hppre a ha])]
    rw [if_neg (by simp [hpcur])]
    rw [List.filter_eq_self.mpr hpt]
    simp
  have hperm_rhs : (List.insertionSort le (store.filter p)).Perm t :=
    ((List.perm_insertionSort le (store.filter p)).trans (hperm.filter p).symm).trans
      (hfilter_s ▸ List.Perm.refl _)
  have hanti_rhs : ∀ a ∈ List.insertionSort le (store.filter p),
      ∀ b ∈ List.insertionSort le (store.filter p), le a b → le b a → a = b := by
    intro a ha b hb
    have ha' : a ∈ store :=
      List.mem_of_mem_filter ((List.perm_insertionSort le _).mem_iff.mp ha)
    have hb' : b ∈ store :=
      List.mem_of_mem_filter ((List.perm_insertionSort le _).mem_iff.mp hb)
    exact hanti a ha' b hb'
  have hrhs : List.insertionSort le (store.filter p) = t :=
    eq_of_perm_of_sorted_on le _ t hperm_rhs hanti_rhs
      (List.sorted_insertionSort le _) ht_pw
  rw [hht, hrhs]
  simp

/-- The `wasEdited` computation is a dates-differ test: `compareAsc`
returns a nonzero value whenever the two dates differ in either direction,
and `!!` maps every nonzero number to `true`. -/
theorem wasEditedFlag_iff (first last : Int) :
    wasEditedFlag first last = true ↔ last ≠ first := by
  unfold wasEditedFlag jsTruthyInt compareAsc
  split_ifs with h1 h2 <;> simp <;> omega

/-- Field contents of a successful run of the plain `getStaticProps`. -/
theorem plain_ok_fields {store : List Document} {slug : String} {v : PostProps}
    (hv : getStaticPropsPlain store slug = Except.ok v) :
    getByUID store "posts" slug = some v.post ∧
    v.nextPost = (nextQueryPlain store v.post).head? ∧
    v.prevPost = (prevQueryPlain store v.post).head? ∧
    v.wasEdited =
      wasEditedFlag v.post.first_publication_date v.post.last_publication_date := by
  unfold getStaticPropsPlain at hv
  cases hfind : getByUID store "posts" slug with
  | none => rw [hfind] at hv; exact absurd hv (by simp)
  | some r =>
    rw [hfind] at hv
    simp only [Except.ok.injEq] at hv
    subst hv
    exact ⟨rfl, rfl, rfl, rfl⟩

/-- Field contents of a successful run of the preview `getStaticProps`. -/
theorem preview_ok_fields {store : List Document} {slug : String} {pv : Bool}
    {v : PreviewPostProps}
    (hv : getStaticPropsPreview store slug pv = Except.ok v) :
    getByUID store "posts" slug = some v.post ∧
    v.nextPost = (nextQueryPreview store v.post).head? ∧
    v.prevPost = (prevQueryPreview store v.post).head? ∧
    v.wasEdited =
      wasEditedFlag v.post.first_publication_date v.post.last_publication_date := by
  unfold getStaticPropsPreview at hv
  cases hfind : getByUID store "posts" slug with
  | none => rw [hfind] at hv; exact absurd hv (by simp)
  | some r =>
    rw [hfind] at hv
    simp only [Except.ok.injEq] at hv
    subst hv
    exact ⟨rfl, rfl, rfl, rfl⟩

/-! ### Claims -/

/-- C1 (counterexample): for the store holding only `docEdited`, whose
`last_publication_date` (0) lies strictly before its
`first_publication_date` (5), the assembled `wasEdited` flag is `true`,
while the claim demands `false` for such a document. -/
theorem c1_counterexample :
    getStaticPropsPlain [docEdited] "w" =
      Except.ok
        { post := docEdited, nextPost := none, prevPost := none, wasEdited := true } ∧
    docEdited.last_publication_date < docEdited.first_publication_date :=
  ⟨by rfl, by decide⟩

/-- C1 (amended): for every post document, the assembled `wasEdited` flag
is true if and only if the document's `lastPublicationDate` differs from
its `firstPublicationDate` (in either direction); equal timestamps yield
`false`, but a `lastPublicationDate` strictly before the
`firstPublicationDate` also yields `true`. -/
theorem c1_wasEdited_iff_dates_differ :
    (∀ (store : List Document) (slug : String) (v : PostProps),
        getStaticPropsPlain store slug = Except.ok v →
        (v.wasEdited = true ↔
          v.post.last_publication_date ≠ v.post.first_publication_date)) ∧
    (∀ (store : List Document) (slug : String) (pv : Bool) (v : PreviewPostProps),
        getStaticPropsPreview store slug pv = Except.ok v →
        (v.wasEdited = true ↔
          v.post.last_publication_date ≠ v.post.first_publication_date)) := by
  constructor
  · intro store slug v hv
    rw [(plain_ok_fields hv).2.2.2]
    exact wasEditedFlag_iff _ _
  · intro store slug pv v hv
    rw [(preview_ok_fields hv).2.2.2]
    exact wasEditedFlag_iff _ _

/-- C1 (witness): the amended theorem applied to the concrete store
`[docEdited]`, whose dates differ. -/
theorem c1_wasEdited_iff_dates_differ_witness :
    docEdited.last_publication_date ≠ docEdited.first_publication_date :=
  (c1_wasEdited_iff_dates_differ.1 [docEdited] "w"
      { post := docEdited, nextPost := none, prevPost := none, wasEdited := true }
      (by rfl)).mp (by rfl)

/-- C8: for every post document whose `lastPublicationDate` equals its
`firstPublicationDate`, the assembled `wasEdited` flag is `false`, in both
`getStaticProps` variants. -/
theorem c8_equal_dates_not_edited :
    (∀ (store : List Document) (slug : String) (v : PostProps),
        getStaticPropsPlain store slug = Except.ok v →
        v.post.last_publication_date = v.post.first_publication_date →
        v.wasEdited = false) ∧
    (∀ (store : List Document) (slug : String) (pv : Bool) (v : PreviewPostProps),
        getStaticPropsPreview store slug pv = Except.ok v →
        v.post.last_publication_date = v.post.first_publication_date →
        v.wasEdited = false) := by
  constructor
  · intro store slug v hv heq
    rw [(plain_ok_fields hv).2.2.2]
    exact Bool.eq_false_iff.mpr (fun htrue => (wasEditedFlag_iff _ _).mp htrue heq)
  · intro store slug pv v hv heq
    rw [(preview_ok_fields hv).2.2.2]
    exact Bool.eq_false_iff.mpr (fun htrue => (wasEditedFlag_iff _ _).mp htrue heq)

/-- C8 (witness): the theorem applied to the store `[docA]`, where the two
dates are equal. -/
theorem c8_equal_dates_not_edited_witness : false = false :=
  c8_equal_dates_not_edited.1 [docA] "a"
    { post := docA, nextPost := none, prevPost := none, wasEdited := false }
    (by rfl) (by decide)

/-- C2: for every post document, `readingTimeMinutes` is the ceiling of
the total word-token count (splitting each block's plain text on runs of
whitespace, JS semantics) divided by 200: it is the least `m` with
`wordsCount ≤ 200 * m`; zero content blocks yield 0; exactly 200 words
yield 1 and 201 words yield 2. -/
theorem c2_readingTime_ceiling :
    (∀ d : Document,
        wordsCount d.data.content ≤ 200 * readingTime d.data.content ∧
        ∀ m : Nat, wordsCount d.data.content ≤ 200 * m →
          readingTime d.data.content ≤ m) ∧
    (∀ d : Document, d.data.content = [] → readingTime d.data.content = 0) ∧
    (∀ d : Document, wordsCount d.data.content = 200 →
      readingTime d.data.content = 1) ∧
    (∀ d : Document, wordsCount d.data.content = 201 →
      readingTime d.data.content = 2) := by
  refine ⟨fun d => ⟨?_, fun m hm => ?_⟩, fun d hd => ?_, fun d h => ?_, fun d h => ?_⟩
  · unfold readingTime
    generalize wordsCount d.data.content = n
    omega
  · unfold readingTime at hm ⊢
    generalize hn : wordsCount d.data.content = n at hm ⊢
    omega
  · rw [hd]; rfl
  · unfold readingTime; rw [h]
  · unfold readingTime; rw [h]

/-- C2 (witness): the theorem applied to `doc200` (exactly 200 words, so
one minute) and to `docSolo` (no content blocks, so zero minutes). -/
theorem c2_readingTime_ceiling_witness :
    readingTime doc200.data.content = 1 ∧ readingTime docSolo.data.content = 0 :=
  ⟨c2_readingTime_ceiling.2.2.1 doc200
      (by set_option maxRecDepth 8000 in decide),
    c2_readingTime_ceiling.2.1 docSolo rfl⟩

/-- C9: `readingTimeMinutes` is monotonically non-decreasing in the total
word count, and a document with zero content blocks yields 0. -/
theorem c9_readingTime_monotone :
    (∀ d e : Document,
        wordsCount e.data.content ≤ wordsCount d.data.content →
        readingTime e.data.content ≤ readingTime d.data.content) ∧
    (∀ d : Document, d.data.content = [] → readingTime d.data.content = 0) := by
  constructor
  · intro d e h
    unfold readingTime
    exact Nat.div_le_div_right (Nat.add_le_add_right h 199)
  · intro d hd
    rw [hd]; rfl

/-- C9 (witness): the theorem applied to `docSolo` (0 words) and `doc200`
(200 words). -/
theorem c9_readingTime_monotone_witness :
    readingTime docSolo.data.content ≤ readingTime doc200.data.content :=
  c9_readingTime_monotone.1 doc200 docSolo
    (by set_option maxRecDepth 8000 in decide)

/-- C10: splitting an empty plain text on runs of whitespace yields a
single (empty) token, so a block with empty extracted text still
contributes one word; hence every post document with at least one content
block has `readingTimeMinutes ≥ 1`, even when every block's body text is
empty. -/
theorem c10_empty_block_counts_one :
    (jsSplitWs (jsTrim "".toList)).length = 1 ∧
    (∀ d : Document, d.data.content ≠ [] →
        (∀ b ∈ d.data.content, asText b.body = "") →
        1 ≤ readingTime d.data.content) := by
  constructor
  · rfl
  · intro d hne _
    have hlen : 1 ≤ d.data.content.length :=
      Nat.succ_le_of_lt (List.length_pos.mpr hne)
    have hw : 1 ≤ wordsCount d.data.content :=
      le_trans hlen (length_le_wordsCount d.data.content)
    unfold readingTime
    omega

/-- C10 (witness): the theorem applied to `docEmptyBlock`, whose single
content block has an empty body. -/
theorem c10_empty_block_counts_one_witness :
    1 ≤ readingTime docEmptyBlock.data.content :=
  c10_empty_block_counts_one.2 docEmptyBlock (by decide)
    (by intro b hb; fin_cases hb; rfl)

/-- Every result of a store query satisfies the query's predicate. -/
theorem storeQuery_pred {store : List Document} {pred : Document → Bool}
    {ord : Document → Document → Prop} [DecidableRel ord]
    {aft : Option String} {k : Nat} {d : Document}
    (h : d ∈ storeQuery store pred ord aft k) : pred d = true := by
  have hs : d ∈ List.insertionSort ord (store.filter pred) := by
    cases aft with
    | none => exact List.mem_of_mem_take h
    | some i =>
      exact (List.dropWhile_sublist _).subset
        (List.mem_of_mem_drop (List.mem_of_mem_take h))
  exact (List.mem_filter.mp ((List.perm_insertionSort ord _).mem_iff.mp hs)).2

/-- The head of an after-id store query never carries the id it was asked
to skip past, provided the store's ids are pairwise distinct. -/
theorem storeQuery_after_head_ne {store : List Document} {pred : Document → Bool}
    {ord : Document → Document → Prop} [DecidableRel ord] {i : String} {n : Document}
    (hid : (store.map (fun d => d.id)).Nodup)
    (h : (storeQuery store pred ord (some i) 1).head? = some n) : n.id ≠ i := by
  have heq : storeQuery store pred ord (some i) 1 =
      (((List.insertionSort ord (store.filter pred)).dropWhile
          (fun (d : Document) => d.id != i)).drop 1).take 1 := rfl
  rw [heq, head?_take_one] at h
  refine after_id_head_ne ?_ i n h
  have h1 : ((store.filter pred).map (fun d => d.id)).Nodup :=
    hid.sublist ((List.filter_sublist store).map _)
  exact ((List.perm_insertionSort ord _).map _).nodup_iff.mpr h1

/-- Results of the plain variant's next query lie strictly after the
current document's first publication date. -/
theorem mem_nextQueryPlain {store : List Document} {r d : Document}
    (h : d ∈ nextQueryPlain store r) :
    r.first_publication_date < d.first_publication_date := by
  simpa using storeQuery_pred h

/-- Results of the plain variant's previous query lie strictly before the
current document's first publication date. -/
theorem mem_prevQueryPlain {store : List Document} {r d : Document}
    (h : d ∈ prevQueryPlain store r) :
    d.first_publication_date < r.first_publication_date := by
  simpa using storeQuery_pred h

/-- C3 (counterexample): with two posts tied on first publication date,
the preview variant returns the same document `docB` as both `nextPost`
and `prevPost`, violating the claim that when both are present they
differ from each other. -/
theorem c3_counterexample :
    getStaticPropsPreview [docA, docB] "a" false =
      Except.ok
        { post := docA, nextPost := some docB, prevPost := some docB,
          wasEdited := false, preview := false } ∧
    docB ≠ docA :=
  ⟨by rfl, by decide⟩

/-- C3 (amended): in the non-preview variant, `nextPost` and `prevPost`,
when present, differ from `post` and from each other. In the preview
variant they differ from `post` provided the store's document ids are
pairwise distinct, but two posts sharing a first publication date can make
`nextPost` and `prevPost` the same document. -/
theorem c3_neighbors_distinct :
    (∀ (store : List Document) (slug : String) (v : PostProps),
        getStaticPropsPlain store slug = Except.ok v →
        (∀ n, v.nextPost = some n → n ≠ v.post) ∧
        (∀ p, v.prevPost = some p → p ≠ v.post) ∧
        (∀ n p, v.nextPost = some n → v.prevPost = some p → n ≠ p)) ∧
    (∀ (store : List Document) (slug : String) (pv : Bool) (v : PreviewPostProps),
        (store.map (fun d => d.id)).Nodup →
        getStaticPropsPreview store slug pv = Except.ok v →
        (∀ n, v.nextPost = some n → n ≠ v.post) ∧
        (∀ p, v.prevPost = some p → p ≠ v.post)) := by
  constructor
  · intro store slug v hv
    obtain ⟨-, hnext, hprev, -⟩ := plain_ok_fields hv
    refine ⟨?_, ?_, ?_⟩
    · intro n hn
      have hmem : n ∈ nextQueryPlain store v.post :=
        List.mem_of_mem_head? (by rw [← hnext]; exact hn)
      intro heq
      subst heq
      exact lt_irrefl _ (mem_nextQueryPlain hmem)
    · intro p hp
      have hmem : p ∈ prevQueryPlain store v.post :=
        List.mem_of_mem_head? (by rw [← hprev]; exact hp)
      intro heq
      subst heq
      exact lt_irrefl _ (mem_prevQueryPlain hmem)
    · intro n p hn hp
      have hmemn : n ∈ nextQueryPlain store v.post :=
        List.mem_of_mem_head? (by rw [← hnext]; exact hn)
      have hmemp : p ∈ prevQueryPlain store v.post :=
        List.mem_of_mem_head? (by rw [← hprev]; exact hp)
      have h1 := mem_nextQueryPlain hmemn
      have h2 := mem_prevQueryPlain hmemp
      intro heq
      subst heq
      exact absurd (lt_trans h2 h1) (lt_irrefl _)
  · intro store slug pv v hid hv
    obtain ⟨-, hnext, hprev, -⟩ := preview_ok_fields hv
    constructor
    · intro n hn
      have hh : (storeQuery store postsOnly dateAsc (some v.post.id) 1).head? = some n :=
        hnext.symm.trans hn
      have hne := storeQuery_after_head_ne hid hh
      intro heq
      exact hne (by rw [heq])
    · intro p hp
      have hh : (storeQuery store postsOnly dateDesc (some v.post.id) 1).head? = some p :=
        hprev.symm.trans hp
      have hne := storeQuery_after_head_ne hid hh
      intro heq
      exact hne (by rw [heq])

/-- C3 (witness): the amended theorem applied to the two-post store with
distinct dates `[docOne, docTwo]`. -/
theorem c3_neighbors_distinct_witness : docTwo ≠ docOne :=
  ((c3_neighbors_distinct.1 [docOne, docTwo] "one"
      { post := docOne, nextPost := some docTwo, prevPost := none, wasEdited := false }
      (by rfl)).1 docTwo (by rfl))

/-- C4 (counterexample): the non-preview variant's next-neighbor query is
not restricted to documents of type `posts` — on a store holding a
`page`-typed document published after the current post, the assembled
`nextPost` is that non-post document. -/
theorem c4_counterexample :
    getStaticPropsPlain [docPost0, docPage5] "p" =
      Except.ok
        { post := docPost0, nextPost := some docPage5, prevPost := none,
          wasEdited := false } ∧
    docPage5.type ≠ "posts" :=
  ⟨by rfl, by decide⟩

/-- C4 (amended): every neighbor query requests at most one result
(page size 1) in both variants; the preview variant's neighbor queries are
additionally restricted to documents of type `posts`, while the
non-preview variant's neighbor queries filter only by publication date and
can return documents of other types. -/
theorem c4_query_shapes :
    (∀ (store : List Document) (r : Document),
        (nextQueryPreview store r).length ≤ 1 ∧
        (prevQueryPreview store r).length ≤ 1 ∧
        (nextQueryPlain store r).length ≤ 1 ∧
        (prevQueryPlain store r).length ≤ 1) ∧
    (∀ (store : List Document) (r : Document),
        (∀ d ∈ nextQueryPreview store r, d.type = "posts") ∧
        (∀ d ∈ prevQueryPreview store r, d.type = "posts")) := by
  constructor
  · intro store r
    refine ⟨?_, ?_, ?_, ?_⟩ <;> exact List.length_take_le 1 _
  · intro store r
    constructor
    · intro d hd
      have := storeQuery_pred hd
      simpa [postsOnly] using this
    · intro d hd
      have := storeQuery_pred hd
      simpa [postsOnly] using this

/-- C4 (witness): the amended theorem applied to the store
`[docOne, docTwo]`: the preview variant's next query returns one result,
of type `posts`. -/
theorem c4_query_shapes_witness :
    (nextQueryPreview [docOne, docTwo] docOne).length ≤ 1 ∧ docTwo.type = "posts" :=
  ⟨(c4_query_shapes.1 [docOne, docTwo] docOne).1,
    (c4_query_shapes.2 [docOne, docTwo] docOne).1 docTwo (by decide)⟩

/-- The head of the plain next query, with the page-size truncation
discharged. -/
theorem nextQueryPlain_head (store : List Document) (r : Document) :
    (nextQueryPlain store r).head? =
      (List.insertionSort dateAsc
        (store.filter
          (fun d =>
            decide (r.first_publication_date < d.first_publication_date)))).head? := by
  rw [show nextQueryPlain store r =
      (List.insertionSort dateAsc
        (store.filter
          (fun d =>
            decide (r.first_publication_date < d.first_publication_date)))).take 1
    from rfl]
  exact head?_take_one _

/-- The head of the plain previous query, with the page-size truncation
discharged. -/
theorem prevQueryPlain_head (store : List Document) (r : Document) :
    (prevQueryPlain store r).head? =
      (List.insertionSort dateDesc
        (store.filter
          (fun d =>
            decide (d.first_publication_date < r.first_publication_date)))).head? := by
  rw [show prevQueryPlain store r =
      (List.insertionSort dateDesc
        (store.filter
          (fun d =>
            decide (d.first_publication_date < r.first_publication_date)))).take 1
    from rfl]
  exact head?_take_one _

/-- The head of the preview next query, with the page-size truncation
discharged. -/
theorem nextQueryPreview_head (store : List Document) (r : Document) :
    (nextQueryPreview store r).head? =
      (((List.insertionSort dateAsc (store.filter postsOnly)).dropWhile
          (fun (d : Document) => d.id != r.id)).drop 1).head? := by
  rw [show nextQueryPreview store r =
      (((List.insertionSort dateAsc (store.filter postsOnly)).dropWhile
          (fun (d : Document) => d.id != r.id)).drop 1).take 1 from rfl]
  exact head?_take_one _

/-- The head of the preview previous query, with the page-size truncation
discharged. -/
theorem prevQueryPreview_head (store : List Document) (r : Document) :
    (prevQueryPreview store r).head? =
      (((List.insertionSort dateDesc (store.filter postsOnly)).dropWhile
          (fun (d : Document) => d.id != r.id)).drop 1).head? := by
  rw [show prevQueryPreview store r =
      (((List.insertionSort dateDesc (store.filter postsOnly)).dropWhile
          (fun (d : Document) => d.id != r.id)).drop 1).take 1 from rfl]
  exact head?_take_one _

/-- C5 (counterexample): on a store with two posts tied on first
publication date, the two `getStaticProps` variants disagree on the
neighbor fields: the plain variant returns no neighbors while the preview
variant returns `docB` as both. -/
theorem c5_counterexample :
    getStaticPropsPlain [docA, docB] "a" =
      Except.ok
        { post := docA, nextPost := none, prevPost := none, wasEdited := false } ∧
    getStaticPropsPreview [docA, docB] "a" false =
      Except.ok
        { post := docA, nextPost := some docB, prevPost := some docB,
          wasEdited := false, preview := false } ∧
    (some docB : Option Document) ≠ none :=
  ⟨by rfl, by rfl, by decide⟩

/-- C5 (amended): for every store state and uid, the two variants agree on
whether the fetch fails, on the fetched `post` and on `wasEdited`; and
when every document in the store is of type `posts`, document ids are
pairwise distinct and first publication dates are pairwise distinct, they
also agree on `nextPost` and `prevPost`. With tied dates or non-post
documents in the store the neighbor fields can differ. -/
theorem c5_variants_agree :
    (∀ (store : List Document) (slug : String) (pv : Bool),
        (getStaticPropsPlain store slug = Except.error AssembleError.notFound ↔
          getStaticPropsPreview store slug pv = Except.error AssembleError.notFound)) ∧
    (∀ (store : List Document) (slug : String) (pv : Bool) (v : PostProps)
        (w : PreviewPostProps),
        getStaticPropsPlain store slug = Except.ok v →
        getStaticPropsPreview store slug pv = Except.ok w →
        v.post = w.post ∧ v.wasEdited = w.wasEdited) ∧
    (∀ (store : List Document) (slug : String) (pv : Bool) (v : PostProps)
        (w : PreviewPostProps),
        (store.map (fun d => d.id)).Nodup →
        (store.map (fun d => d.first_publication_date)).Nodup →
        (∀ d ∈ store, d.type = "posts") →
        getStaticPropsPlain store slug = Except.ok v →
        getStaticPropsPreview store slug pv = Except.ok w →
        v.nextPost = w.nextPost ∧ v.prevPost = w.prevPost) := by
  refine ⟨?_, ?_, ?_⟩
  · intro store slug pv
    unfold getStaticPropsPlain getStaticPropsPreview
    cases hfind : getByUID store "posts" slug <;> simp
  · intro store slug pv v w hv hw
    obtain ⟨hfindv, -, -, hwasv⟩ := plain_ok_fields hv
    obtain ⟨hfindw, -, -, hwasw⟩ := preview_ok_fields hw
    have hpost : v.post = w.post := Option.some.inj (hfindv.symm.trans hfindw)
    exact ⟨hpost, by rw [hwasv, hwasw, hpost]⟩
  · intro store slug pv v w hid hdates hposts hv hw
    obtain ⟨hfindv, hnextv, hprevv, -⟩ := plain_ok_fields hv
    obtain ⟨hfindw, hnextw, hprevw, -⟩ := preview_ok_fields hw
    have hpost : v.post = w.post := Option.some.inj (hfindv.symm.trans hfindw)
    have hcur : v.post ∈ store := by
      have hfind' : store.find? (fun d => d.type == "posts" && d.uid == slug) =
          some v.post := hfindv
      exact List.mem_of_find?_eq_some hfind'
    have hfilterposts : store.filter postsOnly = store :=
      List.filter_eq_self.mpr (fun d hd => by simp [postsOnly, hposts d hd])
    have hinj : ∀ a ∈ store, ∀ b ∈ store,
        a.first_publication_date = b.first_publication_date → a = b :=
      fun a ha b hb hab => List.inj_on_of_nodup_map hdates ha hb hab
    constructor
    · rw [hnextv, hnextw, ← hpost, nextQueryPlain_head, nextQueryPreview_head,
        hfilterposts]
      refine (head_after_eq_head_filter dateAsc (fun a b => Int.le_total _ _)
        (fun a b c hab hbc => le_trans hab hbc) store v.post _ hid
        (fun a ha b hb hab hba => hinj a ha b hb (le_antisymm hab hba)) hcur ?_).symm
      intro d hd
      simp only [decide_eq_true_eq]
      exact lt_iff_le_not_le
    · rw [hprevv, hprevw, ← hpost, prevQueryPlain_head, prevQueryPreview_head,
        hfilterposts]
      refine (head_after_eq_head_filter dateDesc (fun a b => Int.le_total _ _)
        (fun a b c hab hbc => le_trans hbc hab) store v.post _ hid
        (fun a ha b hb hab hba => hinj a ha b hb (le_antisymm hba hab)) hcur ?_).symm
      intro d hd
      simp only [decide_eq_true_eq]
      exact lt_iff_le_not_le

/-- C5 (witness): the amended theorem applied to the all-posts store
`[docOne, docTwo]` with distinct ids and distinct dates. -/
theorem c5_variants_agree_witness :
    (some docTwo : Option Document) = some docTwo ∧
    (none : Option Document) = none :=
  c5_variants_agree.2.2 [docOne, docTwo] "one" false
    { post := docOne, nextPost := some docTwo, prevPost := none, wasEdited := false }
    { post := docOne, nextPost := some docTwo, prevPost := none, wasEdited := false,
      preview := false }
    (by decide) (by decide) (by decide) (by rfl) (by rfl)

/-- C6: in the non-preview variant, if the fetched post carries a maximal
first publication date among all documents of the store then `nextPost` is
`none`, and if it carries a minimal one then `prevPost` is `none`. -/
theorem c6_extreme_dates (store : List Document) (slug : String) (v : PostProps)
    (hv : getStaticPropsPlain store slug = Except.ok v) :
    ((∀ d ∈ store, d.first_publication_date ≤ v.post.first_publication_date) →
      v.nextPost = none) ∧
    ((∀ d ∈ store, v.post.first_publication_date ≤ d.first_publication_date) →
      v.prevPost = none) := by
  obtain ⟨-, hnext, hprev, -⟩ := plain_ok_fields hv
  constructor
  · intro hmax
    rw [hnext, nextQueryPlain_head]
    have hfil : store.filter
        (fun d =>
          decide (v.post.first_publication_date < d.first_publication_date)) = [] := by
      rw [List.filter_eq_nil_iff]
      intro a ha
      simpa using not_lt.mpr (hmax a ha)
    rw [hfil]
    rfl
  · intro hmin
    rw [hprev, prevQueryPlain_head]
    have hfil : store.filter
        (fun d =>
          decide (d.first_publication_date < v.post.first_publication_date)) = [] := by
      rw [List.filter_eq_nil_iff]
      intro a ha
      simpa using not_lt.mpr (hmin a ha)
    rw [hfil]
    rfl

/-- C6 (witness): the theorem applied to the one-post store `[docSolo]`,
whose document is both the most recent and the oldest. -/
theorem c6_extreme_dates_witness :
    (none : Option Document) = none ∧ (none : Option Document) = none := by
  have h := c6_extreme_dates [docSolo] "s"
    { post := docSolo, nextPost := none, prevPost := none, wasEdited := false }
    (by rfl)
  exact ⟨h.1 (by decide), h.2 (by decide)⟩

/-- C7: a uid that resolves to no document of the store makes both
`getStaticProps` variants fail with the not-found error rather than return
assembled props. -/
theorem c7_unknown_uid_not_found (store : List Document) (uid : String) (pv : Bool)
    (h : ∀ d ∈ store, d.uid ≠ uid) :
    getStaticPropsPlain store uid = Except.error AssembleError.notFound ∧
    getStaticPropsPreview store uid pv = Except.error AssembleError.notFound := by
  have hfind : getByUID store "posts" uid = none := by
    unfold getByUID
    rw [List.find?_eq_none]
    intro d hd
    simp [h d hd]
  constructor
  · unfold getStaticPropsPlain
    rw [hfind]
  · unfold getStaticPropsPreview
    rw [hfind]

/-- C7 (witness): the theorem applied to the store `[docA]` and the
unresolvable uid `zzz`. -/
theorem c7_unknown_uid_not_found_witness :
    getStaticPropsPlain [docA] "zzz" = Except.error AssembleError.notFound ∧
    getStaticPropsPreview [docA] "zzz" false = Except.error AssembleError.notFound :=
  c7_unknown_uid_not_found [docA] "zzz" false (by decide)

end Spacetraveling
